import Mathlib

/-!
Verification of the Person CRUD service (`src/main.py`, `src/database.py`).

The service exposes create / get / list / update / delete over a single
`persons` table.  We shallowly embed:

* the JSON payloads a client can send (`Json`),
* the pydantic models `Person` and `PersonUpdate` from `main.py` together
  with their request-body validation (`validatePerson`, `validateUpdate`),
* the database table from `database.py` as a list of rows whose columns
  `name`, `age`, `email` carry a `NOT NULL` constraint (checked at commit
  time by `applyUpdate` / row construction),
* each FastAPI endpoint of `main.py` as a function from the current store
  (and request data) to a `Response` together with the store after the
  request, and
* the whole service as a state machine (`step` / `run`) in which the
  `uuid4()` calls of `create_person` are modelled by an injective supply
  of fresh tokens (`genId`), reflecting the unique-random-token contract
  of `uuid4`.
-/

namespace PersonApi

/-- JSON values as parsed from a request body (python `json` module output;
object fields model a python dict, so a later duplicate key wins).  Numeric
literals are restricted to integers, the only numbers the service's schema
deals in. -/
inductive Json where
  | null
  | bool (b : Bool)
  | int (n : Int)
  | str (s : String)
  | arr (elems : List Json)
  | obj (fields : List (String × Json))

/-- Lookup of a key in a parsed JSON object.  A later occurrence of the key
shadows an earlier one, exactly as when python's json parser builds a dict. -/
def dictGet (fields : List (String × Json)) (k : String) : Option Json :=
  match fields with
  | [] => none
  | kv :: rest =>
    match dictGet rest k with
    | some v => some v
    | none => if kv.1 = k then some kv.2 else none

/-- The pydantic response/request model `Person` of `main.py`:
`id : Optional[str] = None`, `name : str`, `age : int`, `email : str`. -/
structure Person where
  id : Option String
  name : String
  age : Int
  email : String
deriving Repr, DecidableEq

/-- The pydantic model `PersonUpdate` of `main.py`.  Each field is
`Optional[...] = None` and pydantic additionally records whether the field
was present in the request (`model_fields_set`, consumed by
`model_dump(exclude_unset=True)`).  We fuse value and presence:
`none` = field absent from the body, `some none` = field present and
explicitly `null`, `some (some v)` = field present with value `v`. -/
structure PersonUpdate where
  name : Option (Option String)
  age : Option (Option Int)
  email : Option (Option String)
deriving Repr, DecidableEq

/-- The empty update body `{}`: no field present. -/
def emptyUpdate : PersonUpdate := ⟨none, none, none⟩

/-- Validation of a JSON value against a `str` annotation. -/
def Json.asStr : Json → Option String
  | Json.str s => some s
  | _ => none

/-- The value of one decimal digit character. -/
def digitVal (c : Char) : Option Nat :=
  if c.isDigit then some (c.toNat - 48) else none

/-- The value of a non-empty run of decimal digits, most significant
first, accumulated into `acc`; `none` on a non-digit. -/
def digitsToNat (acc : Nat) : List Char → Option Nat
  | [] => some acc
  | c :: rest =>
    match digitVal c with
    | some d => digitsToNat (acc * 10 + d) rest
    | none => none

/-- The integer denoted by a string holding a decimal integer literal
with an optional leading minus sign, e.g. "30" or "-7"; `none` for every
other string.  This is the string shape pydantic's lax mode coerces for
an `int` field. -/
def strToInt : List Char → Option Int
  | [] => none
  | '-' :: rest =>
    match rest with
    | [] => none
    | _ => (digitsToNat 0 rest).map (fun n => -(n : Int))
  | l => (digitsToNat 0 l).map (fun n => (n : Int))

/-- Validation of a JSON value against an `int` annotation.  Pydantic v2
runs in its default lax mode (no strict config anywhere in the source),
which accepts a JSON integer and also coerces a string holding a (signed)
decimal integer literal, e.g. "30"; a non-numeric string (e.g. "thirty"),
a boolean, `null`, or a structured value is a validation error. -/
def Json.asInt : Json → Option Int
  | Json.int n => some n
  | Json.str s => strToInt s.data
  | _ => none

/-- Validation of the optional `id : Optional[str] = None` field of the
`Person` model: absent or `null` gives the default `None`, a string is
kept, any other value is a validation error. -/
def validateId (fields : List (String × Json)) : Option (Option String) :=
  match dictGet fields "id" with
  | none => some none
  | some Json.null => some none
  | some (Json.str s) => some (some s)
  | some _ => none

/-- Request-body validation for `Person` (the create endpoint's body).
Mirrors pydantic on `main.py`'s model: the body must be a JSON object;
`name`, `age`, `email` are required with the annotated type (`null` is not
accepted for them); `id` is optional and may be `null` or a string; unknown
fields are ignored.  `none` is the 422 validation-error outcome. -/
def validatePerson (payload : Json) : Option Person :=
  match payload with
  | Json.obj fields => do
    let i ← validateId fields
    let n ← (dictGet fields "name").bind Json.asStr
    let a ← (dictGet fields "age").bind Json.asInt
    let e ← (dictGet fields "email").bind Json.asStr
    some { id := i, name := n, age := a, email := e }
  | _ => none

/-- Validation of one optional field of `PersonUpdate`: absent is fine,
present `null` is fine (the annotation is `Optional`), a present value must
have the annotated type. -/
def updField (fields : List (String × Json)) (k : String)
    (conv : Json → Option α) : Option (Option (Option α)) :=
  match dictGet fields k with
  | none => some none
  | some Json.null => some (some none)
  | some v =>
    match conv v with
    | some a => some (some (some a))
    | none => none

/-- Request-body validation for `PersonUpdate` (the update endpoint's
body).  `none` is the 422 validation-error outcome. -/
def validateUpdate (payload : Json) : Option PersonUpdate :=
  match payload with
  | Json.obj fields => do
    let n ← updField fields "name" Json.asStr
    let a ← updField fields "age" Json.asInt
    let e ← updField fields "email" Json.asStr
    some { name := n, age := a, email := e }
  | _ => none

/-- A row of the `persons` table of `database.py`: primary-key column `id`
and `NOT NULL` columns `name`, `age`, `email` (so a committed row never
holds a null in them, which is why the field types are not optional). -/
structure PersonRow where
  id : String
  name : String
  age : Int
  email : String
deriving Repr, DecidableEq

/-- The `persons` table.  `SELECT` without `ORDER BY` returns the rows in
insertion order for this schema, which the list order models. -/
abbrev Store := List PersonRow

/-- The response `Person` built from a row, as each handler does after
`refresh`. -/
def PersonRow.toPerson (r : PersonRow) : Person :=
  { id := some r.id, name := r.name, age := r.age, email := r.email }

/-- The observable outcome of one request. -/
inductive Response where
  /-- 201 with the created entity. -/
  | created (p : Person)
  /-- 200 with an entity. -/
  | ok (p : Person)
  /-- 200 with the list of all entities. -/
  | okList (ps : List Person)
  /-- 204, empty body. -/
  | noContent
  /-- 404 with the given `detail` string. -/
  | notFound (detail : String)
  /-- 422, the request body failed schema validation (raised by the
  framework before the handler runs). -/
  | validationError
  /-- 500, an uncaught storage exception (e.g. a violated constraint at
  commit time). -/
  | serverError
deriving Repr, DecidableEq

/-- The `PersonDB(...)` row built by `create_person`: the generated id
together with the validated body's three fields. -/
def mkRow (freshId : String) (person : Person) : PersonRow :=
  { id := freshId, name := person.name, age := person.age,
    email := person.email }

/-- POST `/persons` (`create_person`, `main.py`): the body has already been
validated into `person`; `freshId` is the `str(uuid4())` value.  The
client-supplied `person.id` is overwritten, a row is inserted and committed
(the primary key rejects a duplicate `id`), and the committed row is
returned with status 201. -/
def createPerson (s : Store) (person : Person) (freshId : String) :
    Response × Store :=
  if freshId ∈ s.map PersonRow.id then
    (Response.serverError, s)
  else
    (Response.created (mkRow freshId person).toPerson, s ++ [mkRow freshId person])

/-- POST `/persons` from the raw JSON body: framework validation first,
then the handler. -/
def createPersonJson (s : Store) (payload : Json) (freshId : String) :
    Response × Store :=
  match validatePerson payload with
  | none => (Response.validationError, s)
  | some person => createPerson s person freshId

/-- GET `/persons/:person_id` (`get_person`, `main.py`):
`scalar_one_or_none` on the id filter, 404 with detail "Person not found"
when absent. -/
def getPerson (s : Store) (pid : String) : Response × Store :=
  match s.find? (fun r => r.id == pid) with
  | none => (Response.notFound "Person not found", s)
  | some r => (Response.ok r.toPerson, s)

/-- GET `/persons` (`get_all_persons`, `main.py`). -/
def getAllPersons (s : Store) : Response × Store :=
  (Response.okList (s.map PersonRow.toPerson), s)

/-- The value a `NOT NULL` column holds after the commit of one field of
an update: an absent field keeps the old value, a present field carries the
new one — which must not be `null`, or the commit fails (`none`). -/
def mergeField (old : α) : Option (Option α) → Option α
  | none => some old
  | some v => v

/-- The commit of `update_person`: every field present in the
`exclude_unset` dump has been `setattr`-ed onto the fetched row; committing
succeeds only if no `NOT NULL` column was set to `null` (otherwise the
database raises at the UPDATE statement).  `none` is the failed commit. -/
def applyUpdate (r : PersonRow) (u : PersonUpdate) : Option PersonRow := do
  let name ← mergeField r.name u.name
  let age ← mergeField r.age u.age
  let email ← mergeField r.email u.email
  some { id := r.id, name := name, age := age, email := email }

/-- PUT `/persons/:person_id` (`update_person`, `main.py`):
the body has already been validated into `u`.  404 when the id is absent;
otherwise the present fields are applied to the fetched row and committed;
a violated `NOT NULL` constraint aborts the request (rollback, 500) leaving
the table unchanged; on success the updated row is returned. -/
def updatePerson (s : Store) (pid : String) (u : PersonUpdate) :
    Response × Store :=
  match s.find? (fun r => r.id == pid) with
  | none => (Response.notFound "Person not found", s)
  | some r =>
    match applyUpdate r u with
    | none => (Response.serverError, s)
    | some r2 =>
      (Response.ok r2.toPerson,
        s.map (fun row => if row.id = pid then r2 else row))

/-- PUT `/persons/:person_id` from the raw JSON body:
framework validation first, then the handler. -/
def updatePersonJson (s : Store) (pid : String) (payload : Json) :
    Response × Store :=
  match validateUpdate payload with
  | none => (Response.validationError, s)
  | some u => updatePerson s pid u

/-- DELETE `/persons/:person_id` (`delete_person`,
`main.py`): 404 when the id is absent, otherwise `DELETE ... WHERE id =
person_id` and 204 with an empty body. -/
def deletePerson (s : Store) (pid : String) : Response × Store :=
  match s.find? (fun r => r.id == pid) with
  | none => (Response.notFound "Person not found", s)
  | some _ => (Response.noContent, s.filter (fun r => r.id != pid))

/-! ## The service as a state machine

One request per step.  The `uuid4()` call of `create_person` is modelled by
drawing the next token from an injective fresh-token supply `genId`, the
contract of a random UUID generator.  The ghost field `created` records
every id ever returned by a successful create, so that uniqueness against
already-deleted entities can be stated. -/

/-- One inbound request. -/
inductive Op where
  | create (payload : Json)
  | get (pid : String)
  | list
  | update (pid : String) (payload : Json)
  | delete (pid : String)

/-- The service state: the table, the fresh-token supply position, and the
ghost history of ids handed out by create. -/
structure AppState where
  store : Store
  nextId : Nat
  created : List String
deriving Repr, DecidableEq

/-- The `n`-th token of the fresh-token supply standing in for
`str(uuid4())`: a non-empty string, injective in `n`. -/
def genId (n : Nat) : String := String.mk ('p' :: List.replicate n 'x')

/-- Handle one request in the given state.  A successful create consumes
the fresh token it stored and is recorded in the ghost history; every other
request leaves the supply and the history alone. -/
def step (st : AppState) (op : Op) : Response × AppState :=
  match op with
  | Op.create payload =>
    let res := createPersonJson st.store payload (genId st.nextId)
    match res.1 with
    | Response.created p =>
      (Response.created p,
        { store := res.2, nextId := st.nextId + 1,
          created := st.created ++ [genId st.nextId] })
    | resp => (resp, { st with store := res.2 })
  | Op.get pid =>
    ((getPerson st.store pid).1, { st with store := (getPerson st.store pid).2 })
  | Op.list =>
    ((getAllPersons st.store).1, { st with store := (getAllPersons st.store).2 })
  | Op.update pid payload =>
    ((updatePersonJson st.store pid payload).1,
      { st with store := (updatePersonJson st.store pid payload).2 })
  | Op.delete pid =>
    ((deletePerson st.store pid).1,
      { st with store := (deletePerson st.store pid).2 })

/-- Run a sequence of requests. -/
def run (st : AppState) (ops : List Op) : AppState :=
  ops.foldl (fun s op => (step s op).2) st

/-- The state of a freshly started service over an empty table. -/
def initState : AppState := { store := [], nextId := 0, created := [] }

/-- A request that only reads. -/
def Op.isRead : Op → Prop
  | Op.get _ => True
  | Op.list => True
  | _ => False

/-! ## Basic lemmas about the embedded operations -/

theorem genId_inj {m n : Nat} (h : genId m = genId n) : m = n := by
  have hlen := congrArg String.length h
  simp [genId, String.length] at hlen
  exact hlen

theorem genId_ne_empty (n : Nat) : genId n ≠ "" := by
  intro h
  have h2 : 'p' :: List.replicate n 'x' = ([] : List Char) := congrArg String.data h
  exact List.cons_ne_nil _ _ h2

theorem find?_id_eq_none (s : Store) (pid : String)
    (h : pid ∉ s.map PersonRow.id) :
    s.find? (fun r => r.id == pid) = none := by
  rw [List.find?_eq_none]
  intro r hr hbeq
  have : r.id = pid := beq_iff_eq.mp hbeq
  exact h (this ▸ List.mem_map_of_mem PersonRow.id hr)

theorem find?_id_append (s : Store) (row : PersonRow) (pid : String)
    (h : pid ∉ s.map PersonRow.id) (hrow : row.id = pid) :
    (s ++ [row]).find? (fun r => r.id == pid) = some row := by
  induction s with
  | nil =>
    have hb : (row.id == pid) = true := beq_iff_eq.mpr hrow
    simpa using List.find?_cons_of_pos (p := fun r : PersonRow => r.id == pid) ([] : Store) hb
  | cons a t ih =>
    have ha : a.id ≠ pid := fun he => h (by simp [he])
    have h2 : pid ∉ t.map PersonRow.id := fun hm => h (by simp [hm])
    have hb : ¬ ((a.id == pid) = true) := by simpa using ha
    rw [List.cons_append,
      List.find?_cons_of_neg (p := fun r : PersonRow => r.id == pid) _ hb]
    exact ih h2

theorem applyUpdate_id {r r2 : PersonRow} {u : PersonUpdate}
    (h : applyUpdate r u = some r2) : r2.id = r.id := by
  cases hn : mergeField r.name u.name with
  | none => simp [applyUpdate, hn] at h
  | some nm =>
    cases ha : mergeField r.age u.age with
    | none => simp [applyUpdate, hn, ha] at h
    | some ag =>
      cases he : mergeField r.email u.email with
      | none => simp [applyUpdate, hn, ha, he] at h
      | some em =>
        simp [applyUpdate, hn, ha, he] at h
        rw [← h]

theorem updatePerson_ids (s : Store) (pid : String) (u : PersonUpdate) :
    ((updatePerson s pid u).2).map PersonRow.id = s.map PersonRow.id := by
  cases hf : s.find? (fun r => r.id == pid) with
  | none => simp [updatePerson, hf]
  | some r =>
    cases ha : applyUpdate r u with
    | none => simp [updatePerson, hf, ha]
    | some r2 =>
      have hr2 : r2.id = r.id := applyUpdate_id ha
      have hb : (r.id == pid) = true :=
        List.find?_some (p := fun q : PersonRow => q.id == pid) hf
      have hrid : r.id = pid := beq_iff_eq.mp hb
      simp only [updatePerson, hf, ha, List.map_map]
      apply List.map_congr_left
      intro row hrow
      by_cases hc : row.id = pid
      · simp [Function.comp, hc, hr2, hrid]
      · simp [Function.comp, hc]

theorem replace_self (s : Store) (x : String) (r : PersonRow)
    (hs : (s.map PersonRow.id).Nodup)
    (hr : s.find? (fun q => q.id == x) = some r) :
    s.map (fun row => if row.id = x then r else row) = s := by
  have hmem := List.mem_of_find?_eq_some hr
  have hb : (r.id == x) = true :=
    List.find?_some (p := fun q : PersonRow => q.id == x) hr
  have hrx : r.id = x := beq_iff_eq.mp hb
  conv_rhs => rw [← List.map_id s]
  apply List.map_congr_left
  intro row hrow
  by_cases hc : row.id = x
  · have : row = r :=
      List.inj_on_of_nodup_map hs hrow hmem (by rw [hc, hrx])
    simp [hc, this]
  · simp [hc]

theorem find?_replace (s : Store) (x : String) (r r2 : PersonRow)
    (hr : s.find? (fun q => q.id == x) = some r) (h2 : r2.id = r.id) :
    (s.map (fun row => if row.id = x then r2 else row)).find?
      (fun q => q.id == x) = some r2 := by
  induction s with
  | nil => simp [List.find?] at hr
  | cons a t ih =>
    by_cases hc : a.id = x
    · have hb : (a.id == x) = true := beq_iff_eq.mpr hc
      have har : a = r := by simpa [List.find?, hb] using hr
      have hb2 : (r2.id == x) = true :=
        beq_iff_eq.mpr (by rw [h2, ← har, hc])
      simp [List.find?, hc, hb2]
    · have hb : (a.id == x) = false := by
        simpa using hc
      have hr' : t.find? (fun q => q.id == x) = some r := by
        simpa [List.find?, hb] using hr
      simpa [List.find?, hc, hb] using ih hr'

theorem getPerson_snd (s : Store) (pid : String) : (getPerson s pid).2 = s := by
  unfold getPerson
  cases s.find? (fun r => r.id == pid) <;> rfl

theorem getAllPersons_snd (s : Store) : (getAllPersons s).2 = s := rfl

theorem createPerson_created {s : Store} {person : Person} {fid : String}
    {p : Person} {s2 : Store}
    (h : createPerson s person fid = (Response.created p, s2)) :
    fid ∉ s.map PersonRow.id ∧
      p = (mkRow fid person).toPerson ∧ s2 = s ++ [mkRow fid person] := by
  by_cases hm : fid ∈ s.map PersonRow.id
  · simp [createPerson, hm] at h
  · refine ⟨hm, ?_, ?_⟩
    · have := congrArg Prod.fst h
      simpa [createPerson, hm] using this.symm
    · have := congrArg Prod.snd h
      simpa [createPerson, hm] using this.symm

/-! ## The reachability invariant behind id uniqueness

Every id in the table, and every id ever handed out by create, is a token
of the fresh supply drawn strictly before the current position; the
table's ids are pairwise distinct. -/

def goodState (st : AppState) : Prop :=
  (∀ i ∈ st.store.map PersonRow.id, ∃ k, k < st.nextId ∧ i = genId k) ∧
  (st.store.map PersonRow.id).Nodup ∧
  (∀ c ∈ st.created, ∃ k, k < st.nextId ∧ c = genId k)

theorem goodState_init : goodState initState := by
  refine ⟨?_, ?_, ?_⟩ <;> simp [initState]

theorem goodState_store (st : AppState) (s2 : Store)
    (h : goodState st) (hids2 : s2.map PersonRow.id = st.store.map PersonRow.id) :
    goodState { st with store := s2 } := by
  obtain ⟨hids, hnodup, hcreated⟩ := h
  refine ⟨?_, ?_, ?_⟩
  · intro i hi
    exact hids i (hids2 ▸ hi)
  · exact hids2 ▸ hnodup
  · exact hcreated

theorem goodState_store_sublist (st : AppState) (s2 : Store)
    (h : goodState st)
    (hsub : List.Sublist (s2.map PersonRow.id) (st.store.map PersonRow.id)) :
    goodState { st with store := s2 } := by
  obtain ⟨hids, hnodup, hcreated⟩ := h
  refine ⟨?_, ?_, ?_⟩
  · intro i hi
    exact hids i (hsub.mem hi)
  · exact List.Nodup.sublist hsub hnodup
  · exact hcreated

theorem goodState_step (st : AppState) (op : Op) (h : goodState st) :
    goodState (step st op).2 := by
  cases op with
  | create payload =>
    cases hv : validatePerson payload with
    | none =>
      have hst : (step st (Op.create payload)).2 = { st with store := st.store } := by
        simp [step, createPersonJson, hv]
      rw [hst]
      exact goodState_store st st.store h rfl
    | some person =>
      by_cases hm : genId st.nextId ∈ st.store.map PersonRow.id
      · have hst : (step st (Op.create payload)).2 =
            { st with store := st.store } := by
          simp [step, createPersonJson, hv, createPerson, hm]
        rw [hst]
        exact goodState_store st st.store h rfl
      · have hst : (step st (Op.create payload)).2 =
            { store := st.store ++ [mkRow (genId st.nextId) person],
              nextId := st.nextId + 1,
              created := st.created ++ [genId st.nextId] } := by
          simp [step, createPersonJson, hv, createPerson, hm]
        rw [hst]
        obtain ⟨hids, hnodup, hcreated⟩ := h
        refine ⟨?_, ?_, ?_⟩
        · intro i hi
          rw [List.map_append] at hi
          rcases List.mem_append.mp hi with hi | hi
          · obtain ⟨k, hk, rfl⟩ := hids i hi
            exact ⟨k, Nat.lt_succ_of_lt hk, rfl⟩
          · have hg : i = genId st.nextId := by simpa [mkRow] using hi
            exact ⟨st.nextId, Nat.lt_succ_self _, hg⟩
        · rw [List.map_append, List.nodup_append]
          refine ⟨hnodup, by simp, ?_⟩
          intro i hi hi2
          have hg : i = genId st.nextId := by simpa [mkRow] using hi2
          exact hm (hg ▸ hi)
        · intro c hc
          rcases List.mem_append.mp hc with hc | hc
          · obtain ⟨k, hk, rfl⟩ := hcreated c hc
            exact ⟨k, Nat.lt_succ_of_lt hk, rfl⟩
          · have hg : c = genId st.nextId := by simpa using hc
            exact ⟨st.nextId, Nat.lt_succ_self _, hg⟩
  | get pid =>
    exact goodState_store st _ h (by rw [getPerson_snd])
  | list =>
    exact goodState_store st _ h (by rw [getAllPersons_snd])
  | update pid payload =>
    cases hv : validateUpdate payload with
    | none =>
      have hst : (step st (Op.update pid payload)).2 =
          { st with store := st.store } := by
        simp [step, updatePersonJson, hv]
      rw [hst]
      exact goodState_store st st.store h rfl
    | some u =>
      have hst : (step st (Op.update pid payload)).2 =
          { st with store := (updatePerson st.store pid u).2 } := by
        simp [step, updatePersonJson, hv]
      rw [hst]
      exact goodState_store st _ h (updatePerson_ids st.store pid u)
  | delete pid =>
    cases hf : st.store.find? (fun r => r.id == pid) with
    | none =>
      have hst : (step st (Op.delete pid)).2 = { st with store := st.store } := by
        simp [step, deletePerson, hf]
      rw [hst]
      exact goodState_store st st.store h rfl
    | some r =>
      have hst : (step st (Op.delete pid)).2 =
          { st with store := st.store.filter (fun q => q.id != pid) } := by
        simp [step, deletePerson, hf]
      rw [hst]
      exact goodState_store_sublist st _ h
        (List.Sublist.map _ (List.filter_sublist st.store))

theorem goodState_run (st : AppState) (ops : List Op) (h : goodState st) :
    goodState (run st ops) := by
  induction ops generalizing st with
  | nil => exact h
  | cons op rest ih => exact ih _ (goodState_step st op h)

/-! ## Update-merge lemmas -/

/-- The value a mutable field holds after an update according to
partial-update semantics: a present field overwrites, an absent one keeps
the stored value.  Statement vocabulary for the update theorems. -/
def fieldAfter (old : α) : Option (Option α) → α
  | some (some v) => v
  | _ => old

theorem mergeField_of_ne_null (old : α) (u : Option (Option α))
    (h : u ≠ some none) : mergeField old u = some (fieldAfter old u) := by
  match u with
  | none => rfl
  | some none => exact absurd rfl h
  | some (some v) => rfl

theorem applyUpdate_of_ne_null (r : PersonRow) (u : PersonUpdate)
    (hn : u.name ≠ some none) (ha : u.age ≠ some none)
    (he : u.email ≠ some none) :
    applyUpdate r u = some
      { id := r.id, name := fieldAfter r.name u.name,
        age := fieldAfter r.age u.age, email := fieldAfter r.email u.email } := by
  rw [applyUpdate, mergeField_of_ne_null r.name u.name hn,
    mergeField_of_ne_null r.age u.age ha,
    mergeField_of_ne_null r.email u.email he]
  rfl

theorem applyUpdate_empty (r : PersonRow) : applyUpdate r emptyUpdate = some r := rfl

theorem applyUpdate_null (r : PersonRow) (u : PersonUpdate)
    (h : u.name = some none ∨ u.age = some none ∨ u.email = some none) :
    applyUpdate r u = none := by
  rcases h with h | h | h
  · simp [applyUpdate, h, mergeField]
  · cases hn : mergeField r.name u.name <;>
      simp [applyUpdate, hn, h, mergeField]
  · cases hn : mergeField r.name u.name <;>
      cases ha : mergeField r.age u.age <;>
        simp [applyUpdate, hn, ha, h, mergeField]

/-! ## Validation-failure lemmas -/

theorem validatePerson_name_none (fields : List (String × Json))
    (h : (dictGet fields "name").bind Json.asStr = none) :
    validatePerson (Json.obj fields) = none := by
  cases hi : validateId fields <;> simp [validatePerson, hi, h]

/-- A stored row used in concrete scenarios. -/
def wRow1 : PersonRow :=
  { id := "a1", name := "John Doe", age := 30, email := "john@example.com" }

/-- A second stored row. -/
def wRow2 : PersonRow :=
  { id := "b2", name := "Jane Smith", age := 25, email := "jane@example.com" }

/-- A third stored row. -/
def wRow3 : PersonRow :=
  { id := "c3", name := "Person 3", age := 40, email := "p3@example.com" }

/-- A store holding three persons. -/
def wStore : Store := [wRow1, wRow2, wRow3]

/-- The create body of the spec's concrete scenario. -/
def johnBody : Json :=
  Json.obj [("name", Json.str "John Doe"), ("age", Json.int 30),
    ("email", Json.str "john@example.com")]

/-- The validated form of `johnBody`. -/
def johnPerson : Person :=
  { id := none, name := "John Doe", age := 30, email := "john@example.com" }

/-- A create body that also carries a client-supplied id. -/
def johnBodyWithId : Json :=
  Json.obj [("id", Json.str "client-chosen"), ("name", Json.str "John Doe"),
    ("age", Json.int 30), ("email", Json.str "john@example.com")]

/-- An update body setting `name` explicitly to `null`. -/
def nullNameBody : Json := Json.obj [("name", Json.null)]

/-- A create body whose `name` is the empty string. -/
def emptyNameBody : Json :=
  Json.obj [("name", Json.str ""), ("age", Json.int 30),
    ("email", Json.str "john@example.com")]

/-- C1: for every stored person with id `x` (in a table whose ids are
distinct, as the primary key guarantees), updating with the empty body
succeeds, returns the entity with `name`, `age`, `email` unchanged and
leaves the table unchanged; updating with only `age := 31` succeeds, sets
`age` to 31, and leaves `name` and `email` exactly as they were. -/
theorem partial_update_frame_law (s : Store) (x : String) (r : PersonRow)
    (hs : (s.map PersonRow.id).Nodup)
    (hr : s.find? (fun q => q.id == x) = some r) :
    updatePerson s x emptyUpdate = (Response.ok r.toPerson, s) ∧
    updatePerson s x { name := none, age := some (some 31), email := none } =
      (Response.ok ⟨some r.id, r.name, 31, r.email⟩,
       s.map (fun row => if row.id = x then ⟨r.id, r.name, 31, r.email⟩
         else row)) := by
  constructor
  · have happ := applyUpdate_empty r
    simp only [updatePerson, hr, happ]
    rw [replace_self s x r hs hr]
  · have happ : applyUpdate r { name := none, age := some (some 31), email := none } =
        some ⟨r.id, r.name, 31, r.email⟩ := rfl
    simp only [updatePerson, hr, happ]
    rfl

/-- C1 witness: the law applied to the three-person store at id `b2`. -/
theorem partial_update_frame_law_witness :
    updatePerson wStore "b2" emptyUpdate = (Response.ok wRow2.toPerson, wStore) ∧
    updatePerson wStore "b2" { name := none, age := some (some 31), email := none } =
      (Response.ok ⟨some wRow2.id, wRow2.name, 31, wRow2.email⟩,
       wStore.map (fun row => if row.id = "b2" then ⟨wRow2.id, wRow2.name, 31, wRow2.email⟩
         else row)) :=
  partial_update_frame_law wStore "b2" wRow2 (by decide) (by decide)

/-- C2 counterexample: the update body setting `name` explicitly to `null`
passes schema validation (`Optional[str]` accepts `null`) and its field is
part of the `exclude_unset` dump, but committing the resulting row violates
the `NOT NULL` constraint of `database.py`, so the update aborts with a
server error and the stored value is NOT overwritten — the claim's
"explicitly-null field overwrites the stored value, with the update
succeeding" fails at this input. -/
theorem update_null_field_not_overwrite :
    validateUpdate nullNameBody =
      some { name := some none, age := none, email := none } ∧
    updatePerson [wRow1] "a1" { name := some none, age := none, email := none } =
      (Response.serverError, [wRow1]) ∧
    updatePersonJson [wRow1] "a1" nullNameBody = (Response.serverError, [wRow1]) :=
  ⟨rfl, rfl, rfl⟩

/-- C2 (amended): for every stored person and every validated update
payload, each field absent from the payload keeps its prior stored value
and each field present with a non-`null` value overwrites it, the update
succeeding and returning (and storing) the resulting entity; a field
explicitly present as `null`, however, makes the update fail with a
storage error (the `NOT NULL` constraint) and leaves the store unchanged
rather than overwriting the stored value. -/
theorem update_presence_semantics (s : Store) (x : String) (r : PersonRow)
    (hr : s.find? (fun q => q.id == x) = some r) (u : PersonUpdate)
    (hn : u.name ≠ some none) (ha : u.age ≠ some none)
    (he : u.email ≠ some none) :
    (updatePerson s x u).1 = Response.ok
      ⟨some r.id, fieldAfter r.name u.name, fieldAfter r.age u.age,
        fieldAfter r.email u.email⟩ ∧
    ((updatePerson s x u).2).find? (fun q => q.id == x) = some
      (⟨r.id, fieldAfter r.name u.name, fieldAfter r.age u.age,
        fieldAfter r.email u.email⟩ : PersonRow) ∧
    (∀ u2 : PersonUpdate,
      u2.name = some none ∨ u2.age = some none ∨ u2.email = some none →
      updatePerson s x u2 = (Response.serverError, s)) := by
  have happ := applyUpdate_of_ne_null r u hn ha he
  refine ⟨?_, ?_, ?_⟩
  · simp only [updatePerson, hr, happ]
    rfl
  · simp only [updatePerson, hr, happ]
    exact find?_replace s x r _ hr rfl
  · intro u2 h2
    have hnull := applyUpdate_null r u2 h2
    simp only [updatePerson, hr, hnull]

/-- C2 witness: the amended semantics applied to the three-person store,
updating `age` and `email`, leaving `name` absent. -/
theorem update_presence_semantics_witness :
    (updatePerson wStore "b2"
      { name := none, age := some (some 26), email := some (some "j@x.org") }).1 =
      Response.ok ⟨some wRow2.id, wRow2.name, 26, "j@x.org"⟩ ∧
    ((updatePerson wStore "b2"
      { name := none, age := some (some 26), email := some (some "j@x.org") }).2).find?
        (fun q => q.id == "b2") = some
      (⟨wRow2.id, wRow2.name, 26, "j@x.org"⟩ : PersonRow) ∧
    (∀ u2 : PersonUpdate,
      u2.name = some none ∨ u2.age = some none ∨ u2.email = some none →
      updatePerson wStore "b2" u2 = (Response.serverError, wStore)) :=
  update_presence_semantics wStore "b2" wRow2 (by decide) _
    (by decide) (by decide) (by decide)

/-- C3: for every payload that validates (a valid creation input) and
every id fresh for the table (as `uuid4` supplies), create succeeds with
status 201 returning a person `p` carrying the fresh id, and an immediately
following get of `p`'s id succeeds and returns a person whose `name`,
`age`, `email` are identical to the created ones. -/
theorem create_get_roundtrip (s : Store) (payload : Json) (person : Person)
    (fid : String) (hv : validatePerson payload = some person)
    (hfresh : fid ∉ s.map PersonRow.id) :
    ∃ p s2, createPersonJson s payload fid = (Response.created p, s2) ∧
      p.id = some fid ∧ p.name = person.name ∧ p.age = person.age ∧
      p.email = person.email ∧ getPerson s2 fid = (Response.ok p, s2) := by
  refine ⟨(mkRow fid person).toPerson, s ++ [mkRow fid person], ?_, rfl, rfl,
    rfl, rfl, ?_⟩
  · simp [createPersonJson, hv, createPerson, hfresh]
  · have hf := find?_id_append s (mkRow fid person) fid hfresh rfl
    simp [getPerson, hf]

/-- C3 witness: the round trip for John Doe on the empty store. -/
theorem create_get_roundtrip_witness :
    ∃ p s2, createPersonJson [] johnBody "a1" = (Response.created p, s2) ∧
      p.id = some "a1" ∧ p.name = johnPerson.name ∧ p.age = johnPerson.age ∧
      p.email = johnPerson.email ∧ getPerson s2 "a1" = (Response.ok p, s2) :=
  create_get_roundtrip [] johnBody johnPerson "a1" (by decide) (by decide)

/-- C4: for every id absent from the table (never created, or already
deleted), get yields exactly the 404 "Person not found" outcome, update
yields it for every update payload, delete yields it, and a second delete
of a just-deleted id yields it as well — never another error and never a
silent success, the table being left unchanged each time. -/
theorem absent_id_idempotent (s : Store) (pid : String)
    (h : pid ∉ s.map PersonRow.id) :
    getPerson s pid = (Response.notFound "Person not found", s) ∧
    (∀ u : PersonUpdate,
      updatePerson s pid u = (Response.notFound "Person not found", s)) ∧
    deletePerson s pid = (Response.notFound "Person not found", s) ∧
    (∀ x s2, deletePerson s x = (Response.noContent, s2) →
      deletePerson s2 x = (Response.notFound "Person not found", s2)) := by
  have hf := find?_id_eq_none s pid h
  refine ⟨?_, ?_, ?_, ?_⟩
  · simp [getPerson, hf]
  · intro u
    simp [updatePerson, hf]
  · simp [deletePerson, hf]
  · intro x s2 hdel
    cases hfx : s.find? (fun r => r.id == x) with
    | none => simp [deletePerson, hfx] at hdel
    | some r =>
      have hs2 : s2 = s.filter (fun q => q.id != x) := by
        have h2 := congrArg Prod.snd hdel
        simpa [deletePerson, hfx] using h2.symm
      have hnone : s2.find? (fun q => q.id == x) = none := by
        rw [List.find?_eq_none]
        intro q hq hbeq
        rw [hs2] at hq
        have hq2 := List.mem_filter.mp hq
        have hqx : q.id = x := beq_iff_eq.mp hbeq
        simp [hqx] at hq2
      simp [deletePerson, hnone]

/-- C4 witness: the idempotent-absence law at id `zz` on the three-person
store, including the double delete of `b2`. -/
theorem absent_id_idempotent_witness :
    getPerson wStore "zz" = (Response.notFound "Person not found", wStore) ∧
    (∀ u : PersonUpdate,
      updatePerson wStore "zz" u = (Response.notFound "Person not found", wStore)) ∧
    deletePerson wStore "zz" = (Response.notFound "Person not found", wStore) ∧
    (∀ x s2, deletePerson wStore x = (Response.noContent, s2) →
      deletePerson s2 x = (Response.notFound "Person not found", s2)) :=
  absent_id_idempotent wStore "zz" (by decide)

/-- C5: deleting a stored person with id `x` succeeds with 204, after
which get of `x` is 404, the list contains no person with id `x`, every
other stored person is still present and unchanged, and nothing new
appears; in particular deleting the middle one of three persons leaves the
list holding exactly the other two. -/
theorem delete_effect (s : Store) (x : String) (r : PersonRow)
    (hr : s.find? (fun q => q.id == x) = some r) :
    (deletePerson s x = (Response.noContent, s.filter (fun q => q.id != x)) ∧
     getPerson (s.filter (fun q => q.id != x)) x =
       (Response.notFound "Person not found", s.filter (fun q => q.id != x)) ∧
     (∀ q ∈ s.filter (fun q => q.id != x), q.id ≠ x) ∧
     (∀ q ∈ s, q.id ≠ x → q ∈ s.filter (fun q => q.id != x)) ∧
     (∀ q ∈ s.filter (fun q => q.id != x), q ∈ s)) ∧
    (∀ a b c : PersonRow, a.id ≠ b.id → c.id ≠ b.id →
      deletePerson [a, b, c] b.id = (Response.noContent, [a, c]) ∧
      getAllPersons [a, c] =
        (Response.okList [a.toPerson, c.toPerson], [a, c])) := by
  constructor
  · have hnone : (s.filter (fun q => q.id != x)).find?
        (fun q => q.id == x) = none := by
      rw [List.find?_eq_none]
      intro q hq hbeq
      have hq2 := List.mem_filter.mp hq
      have hqx : q.id = x := beq_iff_eq.mp hbeq
      simp [hqx] at hq2
    refine ⟨by simp [deletePerson, hr], by simp [getPerson, hnone], ?_, ?_, ?_⟩
    · intro q hq
      have hq2 := List.mem_filter.mp hq
      simpa using hq2.2
    · intro q hq hqx
      exact List.mem_filter.mpr ⟨hq, by simpa using hqx⟩
    · intro q hq
      exact (List.mem_filter.mp hq).1
  · intro a b c hab hcb
    have hba : (a.id == b.id) = false := by simpa using hab
    have hbb : (b.id == b.id) = true := beq_iff_eq.mpr rfl
    constructor
    · have hfind : ([a, b, c] : Store).find? (fun q => q.id == b.id) = some b := by
        simp [List.find?, hba, hbb]
      have ha2 : (a.id != b.id) = true := by simpa using hab
      have hc2 : (c.id != b.id) = true := by simpa using hcb
      have hb2 : (b.id != b.id) = false := by simp
      simp [deletePerson, hfind, List.filter, ha2, hc2, hb2]
    · rfl

/-- C5 witness: deleting the middle person `b2` of the three-person store
leaves exactly the other two. -/
theorem delete_effect_witness :
    (deletePerson wStore "b2" =
       (Response.noContent, wStore.filter (fun q => q.id != "b2")) ∧
     getPerson (wStore.filter (fun q => q.id != "b2")) "b2" =
       (Response.notFound "Person not found",
        wStore.filter (fun q => q.id != "b2")) ∧
     (∀ q ∈ wStore.filter (fun q => q.id != "b2"), q.id ≠ "b2") ∧
     (∀ q ∈ wStore, q.id ≠ "b2" → q ∈ wStore.filter (fun q => q.id != "b2")) ∧
     (∀ q ∈ wStore.filter (fun q => q.id != "b2"), q ∈ wStore)) ∧
    (∀ a b c : PersonRow, a.id ≠ b.id → c.id ≠ b.id →
      deletePerson [a, b, c] b.id = (Response.noContent, [a, c]) ∧
      getAllPersons [a, c] =
        (Response.okList [a.toPerson, c.toPerson], [a, c])) :=
  delete_effect wStore "b2" wRow2 (by decide)

/-- C7: after any sequence of requests from the initial state, no two
persisted persons share an id; and whenever a create succeeds, the entity
it returns carries a non-empty id that differs from the id of every
previously created entity (the ghost history, which includes the
already-deleted ones) and from every id currently in the table. -/
theorem create_id_uniqueness (ops : List Op) :
    ((run initState ops).store.map PersonRow.id).Nodup ∧
    ∀ payload p st2,
      step (run initState ops) (Op.create payload) = (Response.created p, st2) →
      ∃ newId, p.id = some newId ∧ newId ≠ "" ∧
        newId ∉ (run initState ops).created ∧
        ∀ r ∈ (run initState ops).store, newId ≠ r.id := by
  obtain ⟨hids, hnodup, hcreated⟩ := goodState_run initState ops goodState_init
  refine ⟨hnodup, ?_⟩
  intro payload p st2 h
  refine ⟨genId (run initState ops).nextId, ?_, genId_ne_empty _, ?_, ?_⟩
  · cases hv : validatePerson payload with
    | none => simp [step, createPersonJson, hv] at h
    | some person =>
      by_cases hm : genId (run initState ops).nextId ∈
          (run initState ops).store.map PersonRow.id
      · simp [step, createPersonJson, hv, createPerson, hm] at h
      · have h1 := congrArg Prod.fst h
        simp [step, createPersonJson, hv, createPerson, hm] at h1
        rw [← h1]
        rfl
  · intro hc
    obtain ⟨k, hk, hke⟩ := hcreated _ hc
    rw [genId_inj hke] at hk
    exact Nat.lt_irrefl _ hk
  · intro r hr hre
    obtain ⟨k, hk, hke⟩ := hids r.id (List.mem_map_of_mem PersonRow.id hr)
    rw [hke] at hre
    rw [genId_inj hre] at hk
    exact Nat.lt_irrefl _ hk

/-- C7 witness: a second create after one earlier create returns a fresh,
non-empty id distinct from the stored and the previously created one. -/
theorem create_id_uniqueness_witness :
    ∃ newId,
      (PersonRow.toPerson (mkRow (genId 1) johnPerson)).id = some newId ∧
      newId ≠ "" ∧ newId ∉ (run initState [Op.create johnBody]).created ∧
      ∀ r ∈ (run initState [Op.create johnBody]).store, newId ≠ r.id :=
  (create_id_uniqueness [Op.create johnBody]).2 johnBody
    (PersonRow.toPerson (mkRow (genId 1) johnPerson))
    (step (run initState [Op.create johnBody]) (Op.create johnBody)).2
    (by decide)

/-- C8: the id is server-controlled — whatever the create body holds (in
particular any client-supplied id), a created response carries exactly the
freshly generated id and the stored row uses it; and no update payload can
change a stored id (updates preserve the table's id column pointwise), the
entity returned by a successful update carrying the requested id. -/
theorem id_server_controlled :
    (∀ s payload fid p s2,
      createPersonJson s payload fid = (Response.created p, s2) →
      p.id = some fid ∧ ∃ person, validatePerson payload = some person ∧
        s2 = s ++ [mkRow fid person]) ∧
    (∀ s pid u,
      ((updatePerson s pid u).2).map PersonRow.id = s.map PersonRow.id) ∧
    (∀ s pid u p s2, updatePerson s pid u = (Response.ok p, s2) →
      p.id = some pid) := by
  refine ⟨?_, updatePerson_ids, ?_⟩
  · intro s payload fid p s2 h
    cases hv : validatePerson payload with
    | none => simp [createPersonJson, hv] at h
    | some person =>
      have h2 : createPerson s person fid = (Response.created p, s2) := by
        simpa [createPersonJson, hv] using h
      obtain ⟨hm, hp, hs2⟩ := createPerson_created h2
      exact ⟨by rw [hp]; rfl, person, rfl, hs2⟩
  · intro s pid u p s2 h
    cases hf : s.find? (fun q => q.id == pid) with
    | none => simp [updatePerson, hf] at h
    | some r =>
      cases ha : applyUpdate r u with
      | none => simp [updatePerson, hf, ha] at h
      | some r2 =>
        have h1 := congrArg Prod.fst h
        simp [updatePerson, hf, ha] at h1
        have hid2 : r2.id = r.id := applyUpdate_id ha
        have hb : (r.id == pid) = true :=
          List.find?_some (p := fun q : PersonRow => q.id == pid) hf
        have hpid : r.id = pid := beq_iff_eq.mp hb
        rw [← h1]
        show some r2.id = some pid
        rw [hid2, hpid]

/-- C8 witness: a create body carrying the client-supplied id
`client-chosen` still yields the generated id `d4`, and an update at `b2`
returns id `b2`. -/
theorem id_server_controlled_witness :
    ((PersonRow.toPerson (mkRow "d4" ⟨some "client-chosen", "John Doe", 30,
        "john@example.com"⟩)).id = some "d4" ∧
      ∃ person, validatePerson johnBodyWithId = some person ∧
        (createPersonJson [] johnBodyWithId "d4").2 = [] ++ [mkRow "d4" person]) ∧
    (PersonRow.toPerson (⟨"b2", "Jane Smith", 26, "jane@example.com"⟩ :
      PersonRow)).id = some "b2" :=
  ⟨id_server_controlled.1 [] johnBodyWithId "d4"
      (PersonRow.toPerson (mkRow "d4" ⟨some "client-chosen", "John Doe", 30,
        "john@example.com"⟩))
      (createPersonJson [] johnBodyWithId "d4").2 (by decide),
   id_server_controlled.2.2 wStore "b2" ⟨none, some (some 26), none⟩
      (PersonRow.toPerson (⟨"b2", "Jane Smith", 26, "jane@example.com"⟩ :
        PersonRow))
      (updatePerson wStore "b2" ⟨none, some (some 26), none⟩).2 (by decide)⟩

/-- C9 counterexample: a create body whose `name` is the empty string IS
accepted as a valid creation input — validation succeeds and create
persists a person with an empty name — refuting the claim that an
empty-string name is not accepted. -/
theorem empty_name_accepted :
    validatePerson emptyNameBody =
      some ⟨none, "", 30, "john@example.com"⟩ ∧
    createPersonJson [] emptyNameBody "a1" =
      (Response.created ⟨some "a1", "", 30, "john@example.com"⟩,
       [⟨"a1", "", 30, "john@example.com"⟩]) :=
  ⟨by decide, by decide⟩

/-- C9 (amended): `name` is a required string field — a create body
missing `name`, or carrying `name` as `null` or as a non-string value,
is rejected — so every persisted person has a name string; the empty
string, however, is accepted as a name, so that name string may be
empty. -/
theorem name_required_string (fields : List (String × Json)) :
    (dictGet fields "name" = none → validatePerson (Json.obj fields) = none) ∧
    (dictGet fields "name" = some Json.null →
      validatePerson (Json.obj fields) = none) ∧
    (∀ v, dictGet fields "name" = some v → Json.asStr v = none →
      validatePerson (Json.obj fields) = none) ∧
    createPersonJson [] emptyNameBody "a1" =
      (Response.created ⟨some "a1", "", 30, "john@example.com"⟩,
       [⟨"a1", "", 30, "john@example.com"⟩]) := by
  refine ⟨?_, ?_, ?_, by decide⟩
  · intro h
    exact validatePerson_name_none fields (by rw [h]; rfl)
  · intro h
    exact validatePerson_name_none fields (by rw [h]; rfl)
  · intro v hv hty
    exact validatePerson_name_none fields (by rw [hv]; simpa using hty)

/-- C9 witness: a body without `name`, and one with `name` set to `null`,
are both rejected. -/
theorem name_required_string_witness :
    validatePerson (Json.obj [("age", Json.int 30),
      ("email", Json.str "e@x.org")]) = none ∧
    validatePerson (Json.obj [("name", Json.null), ("age", Json.int 30),
      ("email", Json.str "e@x.org")]) = none :=
  ⟨(name_required_string [("age", Json.int 30),
      ("email", Json.str "e@x.org")]).1 rfl,
   (name_required_string [("name", Json.null), ("age", Json.int 30),
      ("email", Json.str "e@x.org")]).2.1 rfl⟩

/-- C10: get and list leave the table — indeed the whole service state —
exactly unchanged, so a sequence of reads placed between two requests does
not affect the outcome of the later request. -/
theorem reads_pure :
    (∀ s pid, (getPerson s pid).2 = s) ∧
    (∀ s, (getAllPersons s).2 = s) ∧
    (∀ st pid, (step st (Op.get pid)).2 = st) ∧
    (∀ st, (step st Op.list).2 = st) ∧
    (∀ st ops, (∀ op ∈ ops, op.isRead) → run st ops = st) ∧
    (∀ st ops op2, (∀ op ∈ ops, op.isRead) →
      step (run st ops) op2 = step st op2) := by
  have hget : ∀ st pid, (step st (Op.get pid)).2 = st := by
    intro st pid
    show { st with store := (getPerson st.store pid).2 } = st
    rw [getPerson_snd]
  have hlist : ∀ st, (step st Op.list).2 = st := fun st => rfl
  have hrun : ∀ ops st, (∀ op ∈ ops, op.isRead) → run st ops = st := by
    intro ops
    induction ops with
    | nil => intro st h; rfl
    | cons op rest ih =>
      intro st h
      have h1 : op.isRead := h op (List.mem_cons_self op rest)
      have h2 : ∀ o ∈ rest, Op.isRead o :=
        fun o ho => h o (List.mem_cons_of_mem op ho)
      have hst : (step st op).2 = st := by
        cases op with
        | get pid => exact hget st pid
        | list => exact hlist st
        | create payload => simp [Op.isRead] at h1
        | update pid payload => simp [Op.isRead] at h1
        | delete pid => simp [Op.isRead] at h1
      show run (step st op).2 rest = st
      rw [hst]
      exact ih st h2
  exact ⟨getPerson_snd, getAllPersons_snd, hget, hlist,
    fun st ops h => hrun ops st h,
    fun st ops op2 h => by rw [hrun ops st h]⟩

/-- C10 witness: a get and a list between two creates leave the state
unchanged and do not affect the second create. -/
theorem reads_pure_witness :
    run initState [Op.get "a1", Op.list] = initState ∧
    step (run initState [Op.get "a1", Op.list]) (Op.create johnBody) =
      step initState (Op.create johnBody) :=
  ⟨reads_pure.2.2.2.2.1 initState [Op.get "a1", Op.list]
      (by intro op hop; simp [Op.isRead] at hop ⊢; rcases hop with rfl | rfl <;> trivial),
   reads_pure.2.2.2.2.2 initState [Op.get "a1", Op.list] (Op.create johnBody)
      (by intro op hop; simp [Op.isRead] at hop ⊢; rcases hop with rfl | rfl <;> trivial)⟩

end PersonApi
